import Mathlib

/-!
Verification development for the gif2png repository: a shallow embedding of
the GIF decoder, the PNG/APNG encoder and the shared raster image model,
together with theorems settling the specification claims.

Bytes are modelled as `Nat` values; byte streams as `List Nat`.  Machine
integer wrap-around (Go `uint32(x)`, `uint16(x)`) is made explicit with
`% 256` at each emitted limb.  Fallible Go functions returning
`(T, error)` become `Except GifError (T × List Nat)` over the remaining
input stream.  Loops are expressed with explicit fuel so that every
definition is executable and reduces by `decide`/`rfl`.
-/

namespace Gif2Png

/-! ## Byte-order helpers (encoding/binary) -/

/-- Big-endian 4-byte encoding of a `uint32` value, as in
`binary.BigEndian.PutUint32`; the `% 256` on each limb makes the Go
32-bit truncation explicit. -/
def be32 (n : Nat) : List Nat :=
  [n / 2 ^ 24 % 256, n / 2 ^ 16 % 256, n / 2 ^ 8 % 256, n % 256]

/-- Big-endian 2-byte encoding of a `uint16` value, as in
`binary.BigEndian.PutUint16`. -/
def be16 (n : Nat) : List Nat := [n / 2 ^ 8 % 256, n % 256]

/-- Big-endian decoding of a byte list (inverse of `be32` on 4-byte lists). -/
def de32 (l : List Nat) : Nat := l.foldl (fun a b => a * 256 + b) 0

/-- Little-endian 2-byte decoding, as in `binary.LittleEndian.Uint16`. -/
def le16 (b0 b1 : Nat) : Nat := b0 + 256 * b1

/-! ## CRC32 (hash/crc32, IEEE polynomial)

Go's `crc32.Update(crc, crc32.IEEETable, p)` complements the register,
folds the table-driven per-byte step over `p`, and complements again;
`crc32.ChecksumIEEE(p) = Update(0, IEEETable, p)`.  The table-driven
step equals the textbook bit-by-bit computation with the reflected
polynomial `0xEDB88320`, which is what we embed. -/

/-- The reflected IEEE CRC32 polynomial. -/
def crc32Poly : Nat := 0xEDB88320

/-- One bit step of the CRC32 register: shift right, conditionally
XORing the polynomial when the low bit is set. -/
def crc32BitStep (c : Nat) : Nat :=
  if c % 2 = 1 then (c / 2) ^^^ crc32Poly else c / 2

/-- Iterate the bit step `n` times. -/
def crc32Bits : Nat → Nat → Nat
  | 0, c => c
  | n + 1, c => crc32Bits n (crc32BitStep c)

/-- One byte step: XOR the byte into the register, then eight bit steps. -/
def crc32ByteStep (c b : Nat) : Nat := crc32Bits 8 (c ^^^ b)

/-- Fold the byte step over a byte list (the uncomplemented register). -/
def crc32Raw (c : Nat) (data : List Nat) : Nat := data.foldl crc32ByteStep c

/-- The 32-bit all-ones mask used for the initial and final complement. -/
def mask32 : Nat := 0xFFFFFFFF

/-- Go `crc32.Update`: complement, fold the byte step, complement. -/
def crc32Update (crc : Nat) (data : List Nat) : Nat :=
  crc32Raw (crc ^^^ mask32) data ^^^ mask32

/-- Go `crc32.ChecksumIEEE`. -/
def checksumIEEE (data : List Nat) : Nat := crc32Update 0 data

/-! ## Raster image model (image.go, richest revision)

The richest revision's `ImageFrame` carries geometry, timing and the
transparency sentinel used by the encoder; fields a Go `var` declaration
leaves at their zero value get the same defaults here (`0` for the
numbers, including `transparencyIndex`, and `[]` for slices). -/

/-- A palette entry: three 8-bit channels. -/
structure Rgb where
  r : Nat := 0
  g : Nat := 0
  b : Nat := 0
deriving DecidableEq, Repr

instance : Inhabited Rgb := ⟨{}⟩

/-- One displayable frame of the image. -/
structure ImageFrame where
  width : Nat := 0
  height : Nat := 0
  xOffset : Nat := 0
  yOffset : Nat := 0
  delay : Nat := 0
  transparencyIndex : Int := 0
  palette : List Rgb := []
  data : List Nat := []
deriving DecidableEq, Repr

instance : Inhabited ImageFrame := ⟨{}⟩

/-- The top-level decoded image. -/
structure ImageData where
  width : Nat := 0
  height : Nat := 0
  palette : List Rgb := []
  transparencyIndex : Int := 0
  frames : List ImageFrame := []
deriving DecidableEq, Repr

/-- Palette.MarshalBinary (image.go): serialize the palette as three
bytes (r, g, b) per entry, in index order. -/
def paletteMarshalBinary (v : List Rgb) : List Nat :=
  v.flatMap fun e => [e.r, e.g, e.b]

/-- Palette.UnmarshalBinary (image.go): the length guard runs before any
entry is written, so on a length mismatch the palette is returned
untouched next to the error; on success entry `i` becomes the byte
triplet at offset `3*i`. -/
def paletteUnmarshalBinary (v : List Rgb) (data : List Nat) :
    Except String Unit × List Rgb :=
  if v.length * 3 ≠ data.length then
    (.error "Len is not valid", v)
  else
    (.ok (), (List.range v.length).map fun i =>
      { r := data.getD (i * 3) 0, g := data.getD (i * 3 + 1) 0
        b := data.getD (i * 3 + 2) 0 })

/-! ## Chunk writer and PNG/APNG encoder (png encoder, richest revision)

The encoder is parameterized by the deflate capability `compress`
(Go calls `zlib.NewWriterLevel(..., zlib.BestCompression)`); the claims
never inspect compressed payload bytes. -/

/-- One PNG chunk before framing: its 4-byte ASCII type and payload. -/
structure Chunk where
  type : List Nat
  payload : List Nat
deriving DecidableEq, Repr

instance : Inhabited Chunk := ⟨⟨[], []⟩⟩

/-- Chunk type tag bytes. -/
def typeIHDR : List Nat := [73, 72, 68, 82]
/-- Chunk type tag bytes. -/
def typePLTE : List Nat := [80, 76, 84, 69]
/-- Chunk type tag bytes. -/
def typeTRNS : List Nat := [116, 82, 78, 83]
/-- Chunk type tag bytes. -/
def typeIDAT : List Nat := [73, 68, 65, 84]
/-- Chunk type tag bytes. -/
def typeIEND : List Nat := [73, 69, 78, 68]
/-- Chunk type tag bytes. -/
def typeACTL : List Nat := [97, 99, 84, 76]
/-- Chunk type tag bytes. -/
def typeFCTL : List Nat := [102, 99, 84, 76]
/-- Chunk type tag bytes. -/
def typeFDAT : List Nat := [102, 100, 65, 84]

/-- writeChunk: frame a payload as
`length(4B,BE) | type(4B) | payload | CRC32(4B,BE)`, with the CRC
computed as `crc32.Update(crc32.ChecksumIEEE(type), IEEETable, payload)`. -/
def writeChunk (chunkType payload : List Nat) : List Nat :=
  be32 payload.length ++ chunkType ++ payload ++
    be32 (crc32Update (checksumIEEE chunkType) payload)

/-- The fixed 8-byte PNG signature. -/
def pngSignature : List Nat := [137, 80, 78, 71, 13, 10, 26, 10]

/-- imageHeader.MarshalBinary: the 13-byte IHDR payload. -/
def imageHeaderMarshal (width height bitDepth colorType compressionMethod
    filterMethod interlaceMethod : Nat) : List Nat :=
  be32 width ++ be32 height ++
    [bitDepth, colorType, compressionMethod, filterMethod, interlaceMethod]

/-- writeIHDR: width and height come from `data.frames[0]`; bit depth 8,
color type `paletteUsed | trueColorUsed = 3`, deflate compression,
no filter, no interlace. -/
def writeIHDR (data : ImageData) : Chunk :=
  ⟨typeIHDR,
    imageHeaderMarshal (data.frames.headD default).width
      (data.frames.headD default).height 8 3 0 0 0⟩

/-- writePLTE: the global palette serialized by Palette.MarshalBinary. -/
def writePLTE (data : ImageData) : Chunk :=
  ⟨typePLTE, paletteMarshalBinary data.palette⟩

/-- writeTRNS: 256 alpha bytes of 255 with the transparency index forced
to 0, truncated to the palette length. -/
def writeTRNS (entries : Nat) (transparencyIndex : Int) : Chunk :=
  ⟨typeTRNS, ((List.replicate 256 255).set transparencyIndex.toNat 0).take entries⟩

/-- serialize: each of the `height` rows of `width` pixel-index bytes is
prefixed with a filter-type byte of 0. -/
def serialize (frame : ImageFrame) : List Nat :=
  (List.range frame.height).flatMap fun i =>
    0 :: (frame.data.drop (frame.width * i)).take frame.width

/-- writeIDAT: the deflate-compressed serialized first frame. -/
def writeIDAT (compress : List Nat → List Nat) (data : ImageData) : Chunk :=
  ⟨typeIDAT, compress (serialize (data.frames.headD default))⟩

/-- writeFDAT: a 4-byte sequence number then the compressed frame data. -/
def writeFDAT (compress : List Nat → List Nat) (frame : ImageFrame)
    (seq : Nat) : Chunk :=
  ⟨typeFDAT, be32 seq ++ compress (serialize frame)⟩

/-- writeACTL: 4-byte frame count then 4-byte num-plays = 0. -/
def writeACTL (data : ImageData) : Chunk :=
  ⟨typeACTL, be32 data.frames.length ++ be32 0⟩

/-- frameControl.MarshalBinary inside writeFCTL: sequence number, frame
geometry, delay over the fixed denominator 100, dispose-op 0, and
blend-op 0 exactly when the frame's transparency index is the -1
sentinel. -/
def writeFCTL (frame : ImageFrame) (seq : Nat) : Chunk :=
  ⟨typeFCTL,
    be32 seq ++ be32 frame.width ++ be32 frame.height ++
      be32 frame.xOffset ++ be32 frame.yOffset ++
      be16 frame.delay ++ be16 100 ++
      [0, if frame.transparencyIndex = -1 then 0 else 1]⟩

/-- writeIEND: the empty trailer chunk. -/
def writeIEND : Chunk := ⟨typeIEND, []⟩

/-- The per-frame loop of writeAnimationPngData over `frames[1:]`: each
iteration emits an fcTL with the current sequence number and an fdAT
with the next one. -/
def animFrameLoop (compress : List Nat → List Nat) :
    List ImageFrame → Nat → List Chunk
  | [], _ => []
  | f :: fs, seq =>
      writeFCTL f seq :: writeFDAT compress f (seq + 1) ::
        animFrameLoop compress fs (seq + 2)

/-- writeAnimationPngData: acTL, then fcTL 0 and the IDAT for the first
frame (the IDAT itself carries no sequence number), then the loop over
the remaining frames starting at sequence number 1, then IEND. -/
def writeAnimationPngData (compress : List Nat → List Nat)
    (data : ImageData) : List Chunk :=
  writeACTL data :: writeFCTL (data.frames.headD default) 0 ::
    writeIDAT compress data ::
      (animFrameLoop compress data.frames.tail 1 ++ [writeIEND])

/-- writeNormalPngData: single IDAT then IEND. -/
def writeNormalPngData (compress : List Nat → List Nat)
    (data : ImageData) : List Chunk :=
  [writeIDAT compress data, writeIEND]

/-- WritePng as a chunk sequence: IHDR, PLTE, tRNS when the image
transparency index is not the -1 sentinel, then the animated path for
more than one frame and the still path otherwise. -/
def writePngChunks (compress : List Nat → List Nat)
    (data : ImageData) : List Chunk :=
  [writeIHDR data, writePLTE data] ++
    (if data.transparencyIndex ≠ -1 then
      [writeTRNS data.palette.length data.transparencyIndex] else []) ++
    (if data.frames.length > 1 then writeAnimationPngData compress data
     else writeNormalPngData compress data)

/-- WritePng as the emitted byte stream: the PNG signature followed by
every chunk framed by writeChunk. -/
def writePngBytes (compress : List Nat → List Nat)
    (data : ImageData) : List Nat :=
  pngSignature ++
    (writePngChunks compress data).flatMap fun c => writeChunk c.type c.payload

/-- The sequence numbers actually written into chunks, in emission
order: the leading 4 bytes of every fcTL and fdAT payload (IDAT and the
other chunk types carry none). -/
def chunkSeqNums (cs : List Chunk) : List Nat :=
  cs.flatMap fun c =>
    if c.type = typeFCTL ∨ c.type = typeFDAT then [de32 (c.payload.take 4)]
    else []

/-! ## GIF decoder (richest revision)

A byte stream is a `List Nat`; each reader returns the parsed value and
the remaining stream, or a `GifError`.  Short reads become `ioError`,
`fmt.Errorf` parse failures become `formatError`, and the color
resolution check becomes `unsupported`, mirroring the error taxonomy. -/

/-- The decoder's failure conditions: truncated stream, malformed
structure, or well-formed but unsupported input. -/
inductive GifError
  | ioError
  | formatError (msg : String)
  | unsupported (msg : String)
deriving DecidableEq, Repr

/-- io.ReadFull: take exactly `n` bytes or fail with a truncated-stream
error. -/
def readFull (n : Nat) (r : List Nat) :
    Except GifError (List Nat × List Nat) :=
  if n ≤ r.length then .ok (r.take n, r.drop n) else .error .ioError

/-- readByte: one byte or an unexpected-EOF error. -/
def readByteE (r : List Nat) : Except GifError (Nat × List Nat) :=
  match r with
  | [] => .error .ioError
  | b :: rest => .ok (b, rest)

/-- The 3 signature bytes "GIF". -/
def sigGIF : List Nat := [71, 73, 70]
/-- The 3 version bytes "87a". -/
def ver87a : List Nat := [56, 55, 97]
/-- The 3 version bytes "89a". -/
def ver89a : List Nat := [56, 57, 97]

/-- The parsed 6-byte GIF header. -/
structure Header where
  signature : List Nat
  version : List Nat
deriving DecidableEq, Repr

/-- header.UnmarshalBinary: signature is bytes 0-2, version bytes 3-5. -/
def headerUnmarshal (data : List Nat) : Header :=
  ⟨data.take 3, (data.drop 3).take 3⟩

/-- readHeadser (sic): read 6 bytes, require signature "GIF" and version
"87a" or "89a"; any other value is a format-mismatch error. -/
def readHeadser (r : List Nat) : Except GifError (Header × List Nat) := do
  let (buf, r) ← readFull 6 r
  let h := headerUnmarshal buf
  if h.signature ≠ sigGIF then
    .error (.formatError "Unknown signature")
  else if h.version ≠ ver87a ∧ h.version ≠ ver89a then
    .error (.formatError "Unknown version")
  else
    .ok (h, r)

/-- The parsed 7-byte Logical Screen Descriptor plus its color table. -/
structure LogicalScreenDescriptor where
  logicalScreenWidth : Nat
  logicalScreenHeight : Nat
  globalColorTableFlag : Bool
  colorResolution : Nat
  sortFlag : Bool
  sizeOfGlobalColorTable : Nat
  backgroundColorIndex : Nat
  pixelAspect : Nat
  globalColorTable : List Nat := []
deriving DecidableEq, Repr

/-- logicalScreenDescriptor.UnmarshalBinary: 16-bit little-endian
dimensions and the packed flags byte; the table size is
`2^(low 3 bits + 1)` when the table-present flag is set, else 0. -/
def logicalScreenDescriptorUnmarshal (data : List Nat) :
    LogicalScreenDescriptor :=
  let b4 := data.getD 4 0
  { logicalScreenWidth := le16 (data.getD 0 0) (data.getD 1 0)
    logicalScreenHeight := le16 (data.getD 2 0) (data.getD 3 0)
    globalColorTableFlag := b4 / 2 ^ 7 % 2 == 1
    colorResolution := b4 / 2 ^ 4 % 8 + 1
    sortFlag := b4 / 2 ^ 3 % 2 == 1
    sizeOfGlobalColorTable :=
      if b4 / 2 ^ 7 % 2 == 1 then 2 ^ (b4 % 8 + 1) else 0
    backgroundColorIndex := data.getD 5 0
    pixelAspect := data.getD 6 0 }

/-- readLogicalScreenDescriptor: 7 fixed bytes, then `size*3` color
table bytes when the table-present flag is set. -/
def readLogicalScreenDescriptor (r : List Nat) :
    Except GifError (LogicalScreenDescriptor × List Nat) := do
  let (buf, r) ← readFull 7 r
  let l := logicalScreenDescriptorUnmarshal buf
  if l.globalColorTableFlag then do
    let (table, r) ← readFull (l.sizeOfGlobalColorTable * 3) r
    .ok ({ l with globalColorTable := table }, r)
  else
    .ok (l, r)

/-- The parsed 9-byte Image Descriptor plus its local color table. -/
structure ImageDescriptor where
  imageLeftPosition : Nat
  imageTopPosition : Nat
  imageWidth : Nat
  imageHeight : Nat
  localColorTableFlag : Bool
  interlaceFlag : Bool
  sortFlag : Bool
  sizeOfLocalColorTable : Nat
  localColorTable : List Nat := []
deriving DecidableEq, Repr

/-- imageDescriptor.UnmarshalBinary (richest revision, 9 bytes without
the separator): little-endian position and size fields and the packed
flags byte 8. -/
def imageDescriptorUnmarshal (data : List Nat) : ImageDescriptor :=
  let b8 := data.getD 8 0
  { imageLeftPosition := le16 (data.getD 0 0) (data.getD 1 0)
    imageTopPosition := le16 (data.getD 2 0) (data.getD 3 0)
    imageWidth := le16 (data.getD 4 0) (data.getD 5 0)
    imageHeight := le16 (data.getD 6 0) (data.getD 7 0)
    localColorTableFlag := b8 / 2 ^ 7 % 2 == 1
    interlaceFlag := b8 / 2 ^ 6 % 2 == 1
    sortFlag := b8 / 2 ^ 5 % 2 == 1
    sizeOfLocalColorTable :=
      if b8 / 2 ^ 7 % 2 == 1 then 2 ^ (b8 % 8 + 1) else 0 }

/-- readImageDescriptor: 9 fixed bytes, then `size*3` local color table
bytes when the table-present flag is set. -/
def readImageDescriptor (r : List Nat) :
    Except GifError (ImageDescriptor × List Nat) := do
  let (buf, r) ← readFull 9 r
  let i := imageDescriptorUnmarshal buf
  if i.localColorTableFlag then do
    let (table, r) ← readFull (i.sizeOfLocalColorTable * 3) r
    .ok ({ i with localColorTable := table }, r)
  else
    .ok (i, r)

/-- The parsed 4-byte Graphic Control Extension body. -/
structure GraphicControlExtension where
  disposalMethod : Nat
  userInputFlag : Bool
  transparentColorFlag : Bool
  delayTime : Nat
  transparentColorIndex : Nat
deriving DecidableEq, Repr

/-- graphicControlExtension.UnmarshalBinary: packed byte 0, then the
16-bit little-endian delay and the transparent color index. -/
def graphicControlExtensionUnmarshal (data : List Nat) :
    GraphicControlExtension :=
  let b0 := data.getD 0 0
  { disposalMethod := b0 / 4 % 8
    userInputFlag := b0 / 2 % 2 == 1
    transparentColorFlag := b0 % 2 == 1
    delayTime := le16 (data.getD 1 0) (data.getD 2 0)
    transparentColorIndex := data.getD 3 0 }

/-- io.ReadFull over a blockReader: gather whole length-prefixed
sub-blocks until `need` bytes are available (a 0 length byte before that
is an unexpected EOF), returning the first `need` bytes gathered; bytes
of a block beyond `need` stay buffered in the reader and are discarded
with it. -/
def readBlockBytesAux (fuel need : Nat) (acc r : List Nat) :
    Except GifError (List Nat × List Nat) :=
  if need ≤ acc.length then .ok (acc.take need, r)
  else
    match fuel with
    | 0 => .error .ioError
    | fuel + 1 => do
      let (size, r) ← readByteE r
      if size = 0 then .error .ioError
      else do
        let (blk, r) ← readFull size r
        readBlockBytesAux fuel need (acc ++ blk) r

/-- Entry point for `readBlockBytesAux` with an empty buffer. -/
def readBlockBytes (fuel need : Nat) (r : List Nat) :
    Except GifError (List Nat × List Nat) :=
  readBlockBytesAux fuel need [] r

/-- skipBlock: consume and discard length-prefixed sub-blocks until the
0-length terminator. -/
def skipBlock : Nat → List Nat → Except GifError (List Nat)
  | 0, _ => .error .ioError
  | fuel + 1, r => do
    let (size, r) ← readByteE r
    if size = 0 then .ok r
    else do
      let (_, r) ← readFull size r
      skipBlock fuel r

/-- Gather the concatenated payload of all sub-blocks up to the
0-length terminator, consuming the terminator. -/
def collectBlocks : Nat → List Nat → List Nat →
    Except GifError (List Nat × List Nat)
  | 0, _, _ => .error .ioError
  | fuel + 1, acc, r => do
    let (size, r) ← readByteE r
    if size = 0 then .ok (acc, r)
    else do
      let (blk, r) ← readFull size r
      collectBlocks fuel (acc ++ blk) r

/-- readGraphicControlExtension (richest revision): 4 bytes through a
blockReader, then skipBlock for the terminator. -/
def readGraphicControlExtension (fuel : Nat) (r : List Nat) :
    Except GifError (GraphicControlExtension × List Nat) := do
  let (buf, r) ← readBlockBytes fuel 4 r
  let g := graphicControlExtensionUnmarshal buf
  let r ← skipBlock fuel r
  .ok (g, r)

/-- readApplicationExtension: an 11-byte identifier/auth-code block
whose size byte must equal 11, then skipBlock for the data blocks. -/
def readApplicationExtension (fuel : Nat) (r : List Nat) :
    Except GifError (List Nat) := do
  let (n, r) ← readByteE r
  if n ≠ 11 then .error (.formatError "Unexpected block size")
  else do
    let (_, r) ← readFull 11 r
    skipBlock fuel r

/-! ## LZW decompression (external capability, GIF variant)

Modelled from the spec (section 4.2) and the documented behavior of
Go's `compress/lzw` reader in LSB order, which the decoder consumes as
an external capability: least-significant-bit-first packing, clear code
`2^minCodeSize`, end code `clear+1`, dictionary reset on clear, one new
entry per decoded symbol up to 12-bit codes.  On a truncated stream, an
invalid code, or the end code, the bytes decoded so far are returned. -/

/-- Pointwise update of a dictionary modelled as a function. -/
def updateF (f : Nat → Nat) (i v : Nat) : Nat → Nat :=
  fun j => if j = i then v else f j

/-- The running decompressor state: the LSB-first bit accumulator, the
current code width, the dictionary (`pref`/`suff` keyed by code), the
previous code, the next free slot `hi`, and its width threshold. -/
structure LzwState where
  bits : Nat
  nBits : Nat
  width : Nat
  hi : Nat
  overflow : Nat
  last : Option Nat
  pref : Nat → Nat
  suff : Nat → Nat
  out : List Nat
  input : List Nat

/-- Pull one more input byte into the accumulator when fewer than
`width` bits are buffered. -/
def lzwFill (s : LzwState) : LzwState :=
  if s.nBits < s.width then
    match s.input with
    | [] => s
    | b :: rest =>
        { s with bits := s.bits + b * 2 ^ s.nBits, nBits := s.nBits + 8,
                 input := rest }
  else s

/-- Walk the dictionary chain to the first literal of a code's
expansion. -/
def lzwFirst (pref : Nat → Nat) (clear : Nat) : Nat → Nat → Nat
  | 0, c => c
  | fuel + 1, c => if c < clear then c else lzwFirst pref clear fuel (pref c)

/-- Expand a code to its byte string via the dictionary chain. -/
def lzwExpand (pref suff : Nat → Nat) (clear : Nat) : Nat → Nat → List Nat
  | 0, _ => []
  | fuel + 1, c =>
      if c < clear then [c]
      else lzwExpand pref suff clear fuel (pref c) ++ [suff c]

/-- After emitting for a code: record it as `last`, advance `hi`, and
widen the code size when `hi` reaches the threshold (capped at 12
bits). -/
def lzwPostCode (code : Nat) (s : LzwState) : LzwState :=
  let s := { s with last := some code, hi := s.hi + 1 }
  if s.overflow ≤ s.hi then
    if s.width = 12 then { s with last := none, hi := s.hi - 1 }
    else { s with width := s.width + 1, overflow := s.overflow * 2 }
  else s

/-- The main decode loop: read a code of the current width and dispatch
on literal / clear / end / dictionary code; anything above `hi` is an
invalid code that ends decoding with the output so far. -/
def lzwLoop (litWidth clear eofCode : Nat) : Nat → LzwState → List Nat
  | 0, s => s.out
  | fuel + 1, s =>
    let s := lzwFill (lzwFill s)
    if s.nBits < s.width then s.out
    else
      let code := s.bits % 2 ^ s.width
      let s := { s with bits := s.bits / 2 ^ s.width, nBits := s.nBits - s.width }
      if code < clear then
        let s :=
          match s.last with
          | some l =>
              { s with suff := updateF s.suff s.hi code,
                       pref := updateF s.pref s.hi l }
          | none => s
        lzwLoop litWidth clear eofCode fuel
          (lzwPostCode code { s with out := s.out ++ [code] })
      else if code = clear then
        lzwLoop litWidth clear eofCode fuel
          { s with width := litWidth + 1, hi := eofCode,
                   overflow := 2 ^ (litWidth + 1), last := none }
      else if code = eofCode then s.out
      else if code ≤ s.hi then
        let exp :=
          match s.last with
          | some l =>
              if code = s.hi then
                lzwExpand s.pref s.suff clear 4096 l ++
                  [lzwFirst s.pref clear 4096 l]
              else lzwExpand s.pref s.suff clear 4096 code
          | none => lzwExpand s.pref s.suff clear 4096 code
        let s := { s with out := s.out ++ exp }
        let s :=
          match s.last with
          | some l =>
              { s with suff := updateF s.suff s.hi (exp.headD 0),
                       pref := updateF s.pref s.hi l }
          | none => s
        lzwLoop litWidth clear eofCode fuel (lzwPostCode code s)
      else s.out

/-- GIF-variant LZW decompression of a raw code stream: the capability
the decoder consumes through `lzw.NewReader(..., lzw.LSB, litWidth)`,
which rejects code sizes outside 2..8. -/
def gifLzwDecode (litWidth : Nat) (input : List Nat) : List Nat :=
  if litWidth < 2 ∨ 8 < litWidth then []
  else
    let clear := 2 ^ litWidth
    lzwLoop litWidth clear (clear + 1) (8 * input.length + 16)
      { bits := 0, nBits := 0, width := litWidth + 1, hi := clear + 1,
        overflow := 2 ^ (litWidth + 1), last := none,
        pref := fun _ => 0, suff := fun _ => 0, out := [], input := input }

/-- readTableBasedImageData: the code size byte, then the sub-blocks of
compressed data; `io.ReadFull` on the LZW reader succeeds exactly when
at least `width*height` bytes decode, and the frame keeps the first
`width*height` of them.  Go pulls sub-blocks lazily and flushes the
rest with `skipBlock`; the net stream consumption is every sub-block
through the 0 terminator, which is what `collectBlocks` performs. -/
def readTableBasedImageData (fuel : Nat) (r : List Nat)
    (width height : Nat) : Except GifError (ImageFrame × List Nat) := do
  let (litWidth, r) ← readByteE r
  let (payload, r) ← collectBlocks fuel [] r
  let decoded := gifLzwDecode litWidth payload
  if width * height ≤ decoded.length then
    .ok ({ width := width, height := height,
           data := decoded.take (width * height) }, r)
  else .error .ioError

/-- copy(dst[pos:pos+dstLen], src): Go's copy transfers
`min(dstLen, len(src))` bytes. -/
def copyRange (d : List Nat) (pos dstLen : Nat) (src : List Nat) :
    List Nat :=
  let n := min dstLen src.length
  d.take pos ++ src.take n ++ d.drop (pos + n)

/-- One interlace pass of `deinterlace`: `sy` steps from the pass's
starting row by its skip size while `dy` stays whatever it was passed —
the source never increments it. -/
def deinterlacePass (w h skip : Nat) (src : List Nat) :
    Nat → Nat → Nat → List Nat → List Nat
  | 0, _, _, d => d
  | fuel + 1, sy, dy, d =>
    if sy < h then
      deinterlacePass w h skip src fuel (sy + skip) dy
        (copyRange d (dy * w) w ((src.drop (sy * w)).take w))
    else d

/-- deinterlace: the 4-pass reassembly over a fresh zero buffer with
starting rows 0,4,2,1 and skips 8,8,4,2; `dy` is initialized to 0 and,
as in the source, never incremented. -/
def deinterlace (frame : ImageFrame) (width height : Nat) : List Nat :=
  let startingRow := [0, 4, 2, 1]
  let rowSkipSize := [8, 8, 4, 2]
  (List.range 4).foldl
    (fun d i =>
      deinterlacePass width height (rowSkipSize.getD i 0) frame.data
        height (startingRow.getD i 0) 0 d)
    (List.replicate (width * height) 0)

/-- The top-level block loop of ReadGif: dispatch on the introducer
byte; Image Descriptors append a frame stamped with the cached
`nextDelay`, Graphic Control Extensions replace `nextDelay` with their
delay time (and nothing else reaches the frame), the other extensions
are skipped, and the 0x3B trailer returns the accumulated image. -/
def readGifLoop : Nat → ImageData → Nat → List Nat →
    Except GifError ImageData
  | 0, _, _, _ => .error .ioError
  | fuel + 1, data, nextDelay, r => do
    let (b, r) ← readByteE r
    if b = 0x2C then do
      let (i, r) ← readImageDescriptor r
      let (frame, r) ← readTableBasedImageData fuel r i.imageWidth i.imageHeight
      let frame := { frame with xOffset := i.imageLeftPosition,
                                yOffset := i.imageTopPosition,
                                delay := nextDelay }
      let frame :=
        if i.localColorTableFlag then
          { frame with palette :=
              (paletteUnmarshalBinary
                (List.replicate i.sizeOfLocalColorTable default)
                i.localColorTable).2 }
        else frame
      let frame :=
        if i.interlaceFlag then
          { frame with data := deinterlace frame i.imageWidth i.imageHeight }
        else frame
      readGifLoop fuel { data with frames := data.frames ++ [frame] }
        nextDelay r
    else if b = 0x21 then do
      let (b2, r) ← readByteE r
      if b2 = 0xF9 then do
        let (g, r) ← readGraphicControlExtension fuel r
        readGifLoop fuel data g.delayTime r
      else if b2 = 0xFE then do
        let r ← skipBlock fuel r
        readGifLoop fuel data nextDelay r
      else if b2 = 0x01 then do
        let r ← skipBlock fuel r
        readGifLoop fuel data nextDelay r
      else if b2 = 0xFF then do
        let r ← readApplicationExtension fuel r
        readGifLoop fuel data nextDelay r
      else .error (.formatError "Unknown extension code")
    else if b = 0x3B then .ok data
    else .error (.formatError "Unknown code")

/-- ReadGif (richest revision): header, logical screen descriptor, the
logical screen dimensions into the image, the color resolution gate,
the global palette, then the block loop with `nextDelay` starting at
0. -/
def ReadGif (fuel : Nat) (r : List Nat) : Except GifError ImageData := do
  let (_, r) ← readHeadser r
  let (l, r) ← readLogicalScreenDescriptor r
  let data : ImageData :=
    { width := l.logicalScreenWidth, height := l.logicalScreenHeight }
  if l.colorResolution ≠ 8 then .error (.unsupported "ColorResolution")
  else
    let data :=
      if l.globalColorTableFlag then
        { data with palette :=
            (paletteUnmarshalBinary
              (List.replicate l.sizeOfGlobalColorTable default)
              l.globalColorTable).2 }
      else data
    readGifLoop fuel data 0 r

/-! ## Concrete sample inputs

Small, fully explicit GIF byte streams and images used to evaluate the
embedded codecs on concrete data.  `[68, 2, 5]` is the GIF-variant LZW
encoding, at minimum code size 2, of the pixel indices `[0, 1, 1, 0]`
(codes clear, 0, 1, 1, 0, end packed LSB-first). -/

/-- A GIF89a stream: 2x2 logical screen, a two-entry global color
table, one Graphic Control Extension (transparency flag set, delay 7,
transparent color index 5) and one 2x2 frame of indices 0,1,1,0. -/
def gifGce : List Nat :=
  [71, 73, 70, 56, 57, 97,
   2, 0, 2, 0, 0xF0, 0, 0,
   10, 20, 30, 40, 50, 60,
   0x21, 0xF9, 4, 1, 7, 0, 5, 0,
   0x2C, 0, 0, 0, 0, 2, 0, 2, 0, 0,
   2, 3, 68, 2, 5, 0,
   0x3B]

/-- The image `ReadGif` produces from `gifGce`. -/
def decodedGce : ImageData :=
  { width := 2, height := 2
    palette := [{ r := 10, g := 20, b := 30 }, { r := 40, g := 50, b := 60 }]
    transparencyIndex := 0
    frames := [{ width := 2, height := 2, xOffset := 0, yOffset := 0,
                 delay := 7, transparencyIndex := 0, palette := [],
                 data := [0, 1, 1, 0] }] }

/-- A GIF89a stream with a 10x10 logical screen and two 2x2 frames. -/
def gifTwoFrames : List Nat :=
  [71, 73, 70, 56, 57, 97,
   10, 0, 10, 0, 0xF0, 0, 0,
   10, 20, 30, 40, 50, 60,
   0x2C, 0, 0, 0, 0, 2, 0, 2, 0, 0,
   2, 3, 68, 2, 5, 0,
   0x2C, 0, 0, 0, 0, 2, 0, 2, 0, 0,
   2, 3, 68, 2, 5, 0,
   0x3B]

/-- A sample animation frame. -/
def frameA : ImageFrame :=
  { width := 2, height := 2, delay := 7, data := [0, 1, 1, 0] }

/-- A second sample animation frame. -/
def frameB : ImageFrame :=
  { width := 2, height := 2, delay := 9, data := [1, 0, 0, 1] }

/-- A two-frame image driving the animated encoding path. -/
def sampleAnimImage : ImageData :=
  { width := 10, height := 10
    palette := [{ r := 10, g := 20, b := 30 }, { r := 40, g := 50, b := 60 }]
    frames := [frameA, frameB] }

/-- A 6-byte stream whose signature bytes read "PNG" instead of "GIF". -/
def badSigInput : List Nat := [80, 78, 71, 56, 55, 97]

end Gif2Png

namespace Gif2Png

/-! # Theorems -/

/-! ## Claim C1: deinterlacing an interlaced frame -/

/-- C1 (code bug): for the interlaced 1x2 frame whose rows arrive in
pass order as `[10, 20]` — which for height 2 (pass 1 row 0, pass 4
row 1) is already natural order — the claim requires `deinterlace` to
reproduce `[10, 20]`, but because `dy` is never incremented every
selected row is copied onto row 0 and the result is `[20, 0]`. -/
theorem c1_deinterlace_drops_rows :
    deinterlace { data := [10, 20] } 1 2 = [20, 0] ∧
    deinterlace { data := [10, 20] } 1 2 ≠ [10, 20] := by decide

/-! ## Claim C2: Graphic Control Extension delay and transparency -/

/-- C2 (code bug): decoding `gifGce` — whose Graphic Control Extension
has the transparency flag set, delay 7 and transparent color index 5 —
yields a frame with delay 7 (the cached delay is attached) but with
`transparencyIndex = 0`, the Go zero value: the extension's index 5 is
never carried into the frame and the absent case is never encoded as
the -1 sentinel the encoder tests for. -/
theorem c2_transparency_not_carried :
    (graphicControlExtensionUnmarshal [1, 7, 0, 5]).transparentColorFlag = true ∧
    (graphicControlExtensionUnmarshal [1, 7, 0, 5]).transparentColorIndex = 5 ∧
    (ReadGif 100 gifGce).toOption.map
        (fun d => ((d.frames.headD default).delay,
                   (d.frames.headD default).transparencyIndex))
      = some (7, 0) ∧
    (ReadGif 100 gifGce).toOption.map (fun d => d.transparencyIndex)
      = some 0 := by decide

/-! ## Claim C8: chunk framing and CRC -/

/-- Folding the CRC byte step distributes over concatenation. -/
theorem crc32Raw_append (c : Nat) (a b : List Nat) :
    crc32Raw c (a ++ b) = crc32Raw (crc32Raw c a) b := by
  simp [crc32Raw, List.foldl_append]

/-- XOR with the 32-bit mask is an involution on `Nat`. -/
theorem xor_mask32_cancel (x : Nat) : x ^^^ mask32 ^^^ mask32 = x := by
  simp [Nat.xor_assoc]

/-- Continuing a CRC with `crc32.Update` over more bytes equals the CRC
of the concatenation: the final complement of the first call and the
initial complement of the second cancel. -/
theorem crc32Update_append (c : Nat) (a b : List Nat) :
    crc32Update (crc32Update c a) b = crc32Update c (a ++ b) := by
  simp [crc32Update, crc32Raw_append, xor_mask32_cancel]

/-- C8: `writeChunk` emits exactly the payload length (4 bytes BE), the
4 type bytes, the payload, then 4 BE bytes of the IEEE CRC32 of
`type ++ payload`; in particular the trailing 4 bytes of the emission
equal that recomputed CRC. -/
theorem c8_chunk_crc (chunkType payload : List Nat)
    (h : chunkType.length = 4) :
    writeChunk chunkType payload =
      be32 payload.length ++ chunkType ++ payload ++
        be32 (checksumIEEE (chunkType ++ payload)) ∧
    (writeChunk chunkType payload).drop (8 + payload.length) =
      be32 (checksumIEEE (chunkType ++ payload)) := by
  have hcrc : crc32Update (checksumIEEE chunkType) payload =
      checksumIEEE (chunkType ++ payload) := by
    simp [checksumIEEE, crc32Update_append]
  constructor
  · simp [writeChunk, hcrc]
  · have hlen : (be32 payload.length ++ chunkType ++ payload).length =
        8 + payload.length := by
      simp [be32, h]; omega
    have e : writeChunk chunkType payload =
        (be32 payload.length ++ chunkType ++ payload) ++
          be32 (checksumIEEE (chunkType ++ payload)) := by
      rw [writeChunk, hcrc]
    rw [e, ← hlen, List.drop_left]

/-- Witness for C8 at the concrete chunk type "IEND" and payload
`[7]`. -/
theorem c8_chunk_crc_witness :
    typeIEND.length = 4 ∧
    (writeChunk typeIEND [7] =
      be32 [7].length ++ typeIEND ++ [7] ++
        be32 (checksumIEEE (typeIEND ++ [7])) ∧
    (writeChunk typeIEND [7]).drop (8 + [7].length) =
      be32 (checksumIEEE (typeIEND ++ [7]))) :=
  ⟨by decide, c8_chunk_crc typeIEND [7] (by decide)⟩

/-! ## General list helpers -/

/-- Reading after a drop reads the original list at the shifted index. -/
theorem getD_drop (l : List Nat) (k j : Nat) :
    (l.drop k).getD j 0 = l.getD (k + j) 0 := by
  simp [List.getElem?_drop]

/-- Any list of length at least 3 decomposes into its first three
entries and the rest. -/
theorem cons3_of_three_le : ∀ (l : List Nat), 3 ≤ l.length →
    l = l.getD 0 0 :: l.getD 1 0 :: l.getD 2 0 :: l.drop 3
  | _ :: _ :: _ :: _, _ => rfl
  | [], h => by simp at h
  | [_], h => by simp at h
  | [_, _], h => by simp at h

/-- Length of a flatMap over `range'` whose blocks all have length
`c`. -/
theorem length_flatMap_range' (g : Nat → List Nat) (c : Nat) :
    ∀ (n s : Nat), (∀ j, j ∈ List.range' s n → (g j).length = c) →
      ((List.range' s n).flatMap g).length = n * c
  | 0, s, _ => by simp
  | n + 1, s, hg => by
    rw [List.range'_succ, List.flatMap_cons, List.length_append,
      hg s (by simp),
      length_flatMap_range' g c n (s + 1)
        (fun j hj => hg j (by simp at hj ⊢; omega))]
    ring

/-- Dropping `i` blocks from a flatMap over `range'` of constant-length
blocks lands exactly at block `s + i`. -/
theorem drop_flatMap_range' (g : Nat → List Nat) (c : Nat) :
    ∀ (i n s : Nat), i < n → (∀ j, j ∈ List.range' s n → (g j).length = c) →
      ((List.range' s n).flatMap g).drop (i * c) =
        g (s + i) ++ (List.range' (s + i + 1) (n - i - 1)).flatMap g
  | 0, n, s, hin, _ => by
    obtain ⟨m, rfl⟩ : ∃ m, n = m + 1 := ⟨n - 1, by omega⟩
    rw [List.range'_succ, List.flatMap_cons]
    simp
  | i + 1, n, s, hin, hg => by
    obtain ⟨m, rfl⟩ : ∃ m, n = m + 1 := ⟨n - 1, by omega⟩
    rw [List.range'_succ, List.flatMap_cons]
    have hlen : (g s).length = c := hg s (by simp)
    have harith : (i + 1) * c = (g s).length + i * c := by rw [hlen]; ring
    rw [harith, List.drop_append,
      drop_flatMap_range' g c i m (s + 1) (by omega)
        (fun j hj => hg j (by simp at hj ⊢; omega))]
    have e1 : s + 1 + i = s + (i + 1) := by omega
    have e3 : m - i - 1 = m + 1 - (i + 1) - 1 := by omega
    rw [e1, e3]

/-- Big-endian 32-bit round trip below `2^32`. -/
theorem de32_be32 (n : Nat) (h : n < 2 ^ 32) : de32 (be32 n) = n := by
  simp only [de32, be32, List.foldl]
  omega

/-! ## Claim C10: Palette.UnmarshalBinary -/

/-- C10: on a length mismatch `Palette.UnmarshalBinary` fails and the
palette is untouched (the guard runs before any entry is written); on a
match it succeeds and entry `i` becomes the byte triplet at offset
`3*i`. -/
theorem c10_palette_unmarshal (v : List Rgb) (data : List Nat) :
    (v.length * 3 ≠ data.length →
      paletteUnmarshalBinary v data = (.error "Len is not valid", v)) ∧
    (v.length * 3 = data.length →
      (paletteUnmarshalBinary v data).1 = .ok () ∧
      (paletteUnmarshalBinary v data).2.length = v.length ∧
      ∀ i, i < v.length →
        (paletteUnmarshalBinary v data).2.getD i default =
          { r := data.getD (i * 3) 0, g := data.getD (i * 3 + 1) 0
            b := data.getD (i * 3 + 2) 0 }) := by
  constructor
  · intro hne
    unfold paletteUnmarshalBinary
    rw [if_pos hne]
  · intro heq
    unfold paletteUnmarshalBinary
    rw [if_neg (fun hn => hn heq)]
    refine ⟨rfl, by simp, ?_⟩
    intro i hi
    rw [List.getD_eq_getElem _ _ (by simpa using hi)]
    simp

/-- Witness for C10: the error branch leaves a one-entry palette
untouched, and the success branch stores the triplet `(7, 8, 9)`. -/
theorem c10_palette_unmarshal_witness :
    ([default] : List Rgb).length * 3 ≠ ([1, 2] : List Nat).length ∧
    paletteUnmarshalBinary [default] [1, 2] =
      (.error "Len is not valid", [default]) ∧
    ([default] : List Rgb).length * 3 = ([7, 8, 9] : List Nat).length ∧
    (paletteUnmarshalBinary [default] [7, 8, 9]).2.getD 0 default =
      { r := 7, g := 8, b := 9 } :=
  ⟨by decide, (c10_palette_unmarshal [default] [1, 2]).1 (by decide),
   by decide,
   ((c10_palette_unmarshal [default] [7, 8, 9]).2 (by decide)).2.2 0
     (by decide)⟩

/-! ## Claim C7: scanline serialization -/

/-- Each scanline block built by `serialize` has length `width + 1`
when the pixel buffer covers all rows. -/
theorem serialize_block_length (frame : ImageFrame)
    (h : frame.data.length = frame.width * frame.height) :
    ∀ j, j ∈ List.range' 0 frame.height →
      (0 :: (frame.data.drop (frame.width * j)).take frame.width).length =
        frame.width + 1 := by
  intro j hj
  simp only [List.mem_range'_1] at hj
  have hmul : frame.width * (j + 1) ≤ frame.width * frame.height :=
    Nat.mul_le_mul_left _ (by omega)
  have hexp : frame.width * (j + 1) = frame.width * j + frame.width := by ring
  simp only [List.length_cons, List.length_take, List.length_drop, h]
  omega

/-- C7: with a full `width*height` pixel buffer, the raw scanline
stream has length `(width+1)*height`, the byte at offset `i*(width+1)`
is the filter type 0 for every row `i`, and the `width` bytes after it
are row `i` of the pixel buffer. -/
theorem c7_serialize_scanlines (frame : ImageFrame)
    (h : frame.data.length = frame.width * frame.height) :
    (serialize frame).length = (frame.width + 1) * frame.height ∧
    (∀ i, i < frame.height →
      (serialize frame).getD (i * (frame.width + 1)) 0 = 0) ∧
    (∀ i, i < frame.height →
      ((serialize frame).drop (i * (frame.width + 1) + 1)).take frame.width =
        (frame.data.drop (frame.width * i)).take frame.width) := by
  have hser : serialize frame =
      (List.range' 0 frame.height).flatMap
        (fun i => 0 :: (frame.data.drop (frame.width * i)).take frame.width) := by
    rw [serialize, List.range_eq_range']
  have hg := serialize_block_length frame h
  have hdrop : ∀ i, i < frame.height →
      (serialize frame).drop (i * (frame.width + 1)) =
        (0 :: (frame.data.drop (frame.width * i)).take frame.width) ++
          (List.range' (0 + i + 1) (frame.height - i - 1)).flatMap
            (fun j => 0 :: (frame.data.drop (frame.width * j)).take frame.width) := by
    intro i hi
    rw [hser, drop_flatMap_range' _ (frame.width + 1) i frame.height 0 hi hg]
    simp
  refine ⟨?_, ?_, ?_⟩
  · rw [hser, length_flatMap_range' _ (frame.width + 1) frame.height 0 hg]
    ring
  · intro i hi
    have := hdrop i hi
    have hback : (serialize frame).getD (i * (frame.width + 1)) 0 =
        ((serialize frame).drop (i * (frame.width + 1))).getD 0 0 := by
      simp [getD_drop]
    rw [hback, this]
    rfl
  · intro i hi
    have hsplit : (serialize frame).drop (i * (frame.width + 1) + 1) =
        ((serialize frame).drop (i * (frame.width + 1))).drop 1 := by
      rw [List.drop_drop]
    rw [hsplit, hdrop i hi]
    have hrow : ((frame.data.drop (frame.width * i)).take frame.width).length =
        frame.width := by
      have := hg i (by simp [List.mem_range'_1]; omega)
      simpa using this
    simpa using @List.take_left' Nat _
      ((List.range' (0 + i + 1) (frame.height - i - 1)).flatMap
        (fun j => 0 :: (frame.data.drop (frame.width * j)).take frame.width))
      _ hrow

/-- Witness for C7: the serialized sample frame has length
`(2+1)*2`. -/
theorem c7_serialize_scanlines_witness :
    frameA.data.length = frameA.width * frameA.height ∧
    (serialize frameA).length = (frameA.width + 1) * frameA.height :=
  ⟨by decide, (c7_serialize_scanlines frameA (by decide)).1⟩

/-! ## Claim C3: animated-path chunk counts and sequence numbers -/

/-- The fcTL chunks emitted by the per-frame animation loop number
exactly the frames it visits. -/
theorem countP_fcTL_animFrameLoop (compress : List Nat → List Nat) :
    ∀ (fs : List ImageFrame) (s : Nat),
      (animFrameLoop compress fs s).countP
        (fun c => c.type == typeFCTL) = fs.length
  | [], _ => rfl
  | f :: fs, s => by
    have e : animFrameLoop compress (f :: fs) s =
        writeFCTL f s :: writeFDAT compress f (s + 1) ::
          animFrameLoop compress fs (s + 2) := rfl
    have h1 : ((writeFCTL f s).type == typeFCTL) = true := rfl
    have h2 : ((writeFDAT compress f (s + 1)).type == typeFCTL) = false := rfl
    rw [e, List.countP_cons, List.countP_cons, h1, h2,
      countP_fcTL_animFrameLoop compress fs (s + 2)]
    simp

/-- The fdAT chunks emitted by the per-frame animation loop number
exactly the frames it visits. -/
theorem countP_data_animFrameLoop (compress : List Nat → List Nat) :
    ∀ (fs : List ImageFrame) (s : Nat),
      (animFrameLoop compress fs s).countP
        (fun c => c.type == typeIDAT || c.type == typeFDAT) = fs.length
  | [], _ => rfl
  | f :: fs, s => by
    have e : animFrameLoop compress (f :: fs) s =
        writeFCTL f s :: writeFDAT compress f (s + 1) ::
          animFrameLoop compress fs (s + 2) := rfl
    have h1 : ((writeFCTL f s).type == typeIDAT ||
        (writeFCTL f s).type == typeFDAT) = false := rfl
    have h2 : ((writeFDAT compress f (s + 1)).type == typeIDAT ||
        (writeFDAT compress f (s + 1)).type == typeFDAT) = true := rfl
    rw [e, List.countP_cons, List.countP_cons, h1, h2,
      countP_data_animFrameLoop compress fs (s + 2)]
    simp

/-- Unfolding `chunkSeqNums` one chunk at a time. -/
theorem chunkSeqNums_cons (c : Chunk) (cs : List Chunk) :
    chunkSeqNums (c :: cs) =
      (if c.type = typeFCTL ∨ c.type = typeFDAT
       then [de32 (c.payload.take 4)] else []) ++ chunkSeqNums cs := rfl

/-- The sequence numbers written by the per-frame animation loop from
start `s` form the contiguous block `s, s+1, ..., s + 2*len - 1`. -/
theorem chunkSeqNums_animFrameLoop (compress : List Nat → List Nat) :
    ∀ (fs : List ImageFrame) (s : Nat), s + 2 * fs.length ≤ 2 ^ 32 →
      chunkSeqNums (animFrameLoop compress fs s) =
        List.range' s (2 * fs.length)
  | [], s, _ => by simp [animFrameLoop, chunkSeqNums]
  | f :: fs, s, hb => by
    have e : animFrameLoop compress (f :: fs) s =
        writeFCTL f s :: writeFDAT compress f (s + 1) ::
          animFrameLoop compress fs (s + 2) := rfl
    have hif1 : (if (writeFCTL f s).type = typeFCTL ∨
        (writeFCTL f s).type = typeFDAT
        then [de32 ((writeFCTL f s).payload.take 4)] else []) =
      [de32 (be32 s)] := rfl
    have hif2 : (if (writeFDAT compress f (s + 1)).type = typeFCTL ∨
        (writeFDAT compress f (s + 1)).type = typeFDAT
        then [de32 ((writeFDAT compress f (s + 1)).payload.take 4)]
        else []) = [de32 (be32 (s + 1))] := rfl
    rw [e, chunkSeqNums_cons, chunkSeqNums_cons, hif1, hif2,
      de32_be32 s (by simp at hb; omega),
      de32_be32 (s + 1) (by simp at hb; omega),
      chunkSeqNums_animFrameLoop compress fs (s + 2)
        (by simp at hb ⊢; omega)]
    have e2 : 2 * (f :: fs).length = 2 * fs.length + 1 + 1 := by
      simp [List.length_cons]; ring
    rw [e2, List.range'_succ, List.range'_succ]
    simp

/-- C3 counterexample: for the concrete two-frame image, the animated
path writes the sequence numbers 0, 1, 2 — the contiguous range
`0..2N-2` — and not the claimed `0..2N-1` (the IDAT chunk carries no
sequence number and the counter is not advanced for it). -/
theorem c3_seqnums_counterexample :
    sampleAnimImage.frames.length = 2 ∧
    chunkSeqNums (writeAnimationPngData (fun x => x) sampleAnimImage) =
      [0, 1, 2] ∧
    chunkSeqNums (writeAnimationPngData (fun x => x) sampleAnimImage) ≠
      List.range (2 * sampleAnimImage.frames.length) := by decide

/-- C3 amended: for an image with at least two frames (and no 32-bit
sequence wrap), the animated path emits exactly N fcTL chunks and N
data chunks (one IDAT and N-1 fdAT), and the sequence numbers written
into chunks form the contiguous range `0..2N-2` in emission order:
the first fcTL takes 0, every later fcTL and every fdAT increments by
one, and the IDAT carries no sequence number. -/
theorem c3_seqnums_amended (compress : List Nat → List Nat)
    (d : ImageData) (f0 f1 : ImageFrame) (fs : List ImageFrame)
    (hf : d.frames = f0 :: f1 :: fs)
    (hbound : d.frames.length ≤ 2 ^ 31) :
    (writeAnimationPngData compress d).countP
        (fun c => c.type == typeFCTL) = d.frames.length ∧
    (writeAnimationPngData compress d).countP
        (fun c => c.type == typeIDAT || c.type == typeFDAT) =
      d.frames.length ∧
    chunkSeqNums (writeAnimationPngData compress d) =
      List.range (2 * d.frames.length - 1) := by
  have hN : d.frames.length = fs.length + 2 := by rw [hf]; simp
  have htail : d.frames.tail = f1 :: fs := by simp [hf]
  have e : writeAnimationPngData compress d =
      writeACTL d :: writeFCTL (d.frames.headD default) 0 ::
        writeIDAT compress d ::
          (animFrameLoop compress d.frames.tail 1 ++ [writeIEND]) := rfl
  have hACTL1 : ((writeACTL d).type == typeFCTL) = false := rfl
  have hACTL2 : ((writeACTL d).type == typeIDAT ||
      (writeACTL d).type == typeFDAT) = false := rfl
  have hFCTL1 : ((writeFCTL (d.frames.headD default) 0).type ==
      typeFCTL) = true := rfl
  have hFCTL2 : ((writeFCTL (d.frames.headD default) 0).type == typeIDAT ||
      (writeFCTL (d.frames.headD default) 0).type == typeFDAT) = false := rfl
  have hIDAT1 : ((writeIDAT compress d).type == typeFCTL) = false := rfl
  have hIDAT2 : ((writeIDAT compress d).type == typeIDAT ||
      (writeIDAT compress d).type == typeFDAT) = true := rfl
  have hIEND1 : ((writeIEND).type == typeFCTL) = false := rfl
  have hIEND2 : ((writeIEND).type == typeIDAT ||
      (writeIEND).type == typeFDAT) = false := rfl
  refine ⟨?_, ?_, ?_⟩
  · rw [e, List.countP_cons, List.countP_cons, List.countP_cons,
      List.countP_append, hACTL1, hFCTL1, hIDAT1, htail,
      countP_fcTL_animFrameLoop compress (f1 :: fs) 1]
    simp [hIEND1, hN, List.countP_cons]
  · rw [e, List.countP_cons, List.countP_cons, List.countP_cons,
      List.countP_append, hACTL2, hFCTL2, hIDAT2, htail,
      countP_data_animFrameLoop compress (f1 :: fs) 1]
    simp [hIEND2, hN, List.countP_cons]
  · have hifA : (if (writeACTL d).type = typeFCTL ∨
        (writeACTL d).type = typeFDAT
        then [de32 ((writeACTL d).payload.take 4)] else []) =
      ([] : List Nat) := rfl
    have hif0 : (if (writeFCTL (d.frames.headD default) 0).type = typeFCTL ∨
        (writeFCTL (d.frames.headD default) 0).type = typeFDAT
        then [de32 ((writeFCTL (d.frames.headD default) 0).payload.take 4)]
        else []) = [de32 (be32 0)] := rfl
    have hifI : (if (writeIDAT compress d).type = typeFCTL ∨
        (writeIDAT compress d).type = typeFDAT
        then [de32 ((writeIDAT compress d).payload.take 4)] else []) =
      ([] : List Nat) := rfl
    have hseq : chunkSeqNums (animFrameLoop compress d.frames.tail 1 ++
        [writeIEND]) = List.range' 1 (2 * (f1 :: fs).length) := by
      have hE : chunkSeqNums [writeIEND] = [] := rfl
      have hsplit : chunkSeqNums (animFrameLoop compress d.frames.tail 1 ++
          [writeIEND]) =
        chunkSeqNums (animFrameLoop compress d.frames.tail 1) ++
          chunkSeqNums [writeIEND] := by
        simp [chunkSeqNums]
      rw [hsplit, hE, htail,
        chunkSeqNums_animFrameLoop compress (f1 :: fs) 1 (by simp; omega)]
      simp
    rw [e, chunkSeqNums_cons, chunkSeqNums_cons, chunkSeqNums_cons,
      hifA, hif0, hifI, hseq, de32_be32 0 (by norm_num)]
    have e2 : 2 * d.frames.length - 1 = 2 * (f1 :: fs).length + 1 := by
      simp [hN]; omega
    rw [e2, List.range_eq_range', List.range'_succ]
    simp

/-! ## Claim C5: palette fidelity -/

/-- Flattening the byte triplets read at offsets `i*3` over a block of
indices reproduces the corresponding slice of the source bytes. -/
theorem flatMap_triples : ∀ (n s : Nat) (data : List Nat),
    s * 3 + n * 3 ≤ data.length →
    ((List.range' s n).flatMap fun i =>
        [data.getD (i * 3) 0, data.getD (i * 3 + 1) 0,
          data.getD (i * 3 + 2) 0]) =
      (data.drop (s * 3)).take (n * 3)
  | 0, s, data, _ => by simp
  | n + 1, s, data, hb => by
    rw [List.range'_succ, List.flatMap_cons,
      flatMap_triples n (s + 1) data (by omega)]
    have hd3 : 3 ≤ (data.drop (s * 3)).length := by simp; omega
    have hdec := cons3_of_three_le (data.drop (s * 3)) hd3
    have hexp : (n + 1) * 3 = n * 3 + 1 + 1 + 1 := by ring
    conv_rhs => rw [hdec]
    rw [hexp, List.take_succ_cons, List.take_succ_cons, List.take_succ_cons]
    have h0 : (data.drop (s * 3)).getD 0 0 = data.getD (s * 3) 0 := by
      simp [getD_drop]
    have h1 : (data.drop (s * 3)).getD 1 0 = data.getD (s * 3 + 1) 0 := by
      simp [getD_drop]
    have h2 : (data.drop (s * 3)).getD 2 0 = data.getD (s * 3 + 2) 0 := by
      simp [getD_drop]
    have h3 : (data.drop (s * 3)).drop 3 = data.drop ((s + 1) * 3) := by
      rw [List.drop_drop]
      congr 1
      ring
    rw [h0, h1, h2, h3]
    rfl

/-- Marshalling a palette that was just unmarshalled from a color table
reproduces the table byte-for-byte. -/
theorem paletteMarshal_of_unmarshal (p0 : List Rgb) (table : List Nat)
    (p : List Rgb)
    (h : paletteUnmarshalBinary p0 table = (.ok (), p)) :
    paletteMarshalBinary p = table := by
  unfold paletteUnmarshalBinary at h
  by_cases hlen : p0.length * 3 ≠ table.length
  · rw [if_pos hlen] at h
    exact absurd (congrArg Prod.fst h) (by simp)
  · rw [if_neg hlen] at h
    push_neg at hlen
    have hp := congrArg Prod.snd h
    simp only at hp
    rw [← hp, paletteMarshalBinary, List.flatMap_map]
    have := flatMap_triples p0.length 0 table (by omega)
    simp only [Nat.zero_mul, List.drop_zero] at this
    rw [← List.range_eq_range'] at this
    calc (List.range p0.length).flatMap
          ((fun e => [e.r, e.g, e.b]) ∘ fun i =>
            ({ r := table.getD (i * 3) 0, g := table.getD (i * 3 + 1) 0
               b := table.getD (i * 3 + 2) 0 } : Rgb))
        = (List.range p0.length).flatMap fun i =>
            [table.getD (i * 3) 0, table.getD (i * 3 + 1) 0,
              table.getD (i * 3 + 2) 0] := rfl
      _ = table.take (p0.length * 3) := this
      _ = table := by rw [hlen, List.take_length]

/-- C5: for an image whose palette was read from a source color table,
the PLTE payload reproduces the table exactly, and in particular the
byte triplet at offset `i*3` of the payload equals the (R, G, B) bytes
at offset `i*3` of the source table, for every palette index `i`. -/
theorem c5_palette_fidelity (p0 : List Rgb) (table : List Nat)
    (d : ImageData)
    (h : paletteUnmarshalBinary p0 table = (.ok (), d.palette)) :
    (writePLTE d).payload = table ∧
    ∀ i, i < d.palette.length →
      ((writePLTE d).payload.drop (i * 3)).take 3 =
        [table.getD (i * 3) 0, table.getD (i * 3 + 1) 0,
          table.getD (i * 3 + 2) 0] := by
  have hm : (writePLTE d).payload = table :=
    paletteMarshal_of_unmarshal p0 table d.palette h
  refine ⟨hm, ?_⟩
  intro i hi
  have hplen : d.palette.length = p0.length ∧
      p0.length * 3 = table.length := by
    unfold paletteUnmarshalBinary at h
    by_cases hlen : p0.length * 3 ≠ table.length
    · rw [if_pos hlen] at h
      exact absurd (congrArg Prod.fst h) (by simp)
    · rw [if_neg hlen] at h
      push_neg at hlen
      have hp := congrArg Prod.snd h
      simp only at hp
      exact ⟨by rw [← hp]; simp, hlen⟩
  have hd3 : 3 ≤ (table.drop (i * 3)).length := by
    simp
    omega
  have hdec := cons3_of_three_le (table.drop (i * 3)) hd3
  rw [hm]
  conv_lhs => rw [hdec]
  have h0 : (table.drop (i * 3)).getD 0 0 = table.getD (i * 3) 0 := by
    simp [getD_drop]
  have h1 : (table.drop (i * 3)).getD 1 0 = table.getD (i * 3 + 1) 0 := by
    simp [getD_drop]
  have h2 : (table.drop (i * 3)).getD 2 0 = table.getD (i * 3 + 2) 0 := by
    simp [getD_drop]
  rw [h0, h1, h2]
  rfl

/-- Witness for C5 at the concrete two-entry color table of the sample
image. -/
theorem c5_palette_fidelity_witness :
    (writePLTE decodedGce).payload = [10, 20, 30, 40, 50, 60] :=
  (c5_palette_fidelity (List.replicate 2 default)
    [10, 20, 30, 40, 50, 60] decodedGce (by rfl)).1

/-! ## Claim C6: rejection of malformed headers -/

/-- Characterization of `readHeadser` on streams of at least 6 bytes:
the signature check, then the version check, then success. -/
theorem readHeadser_eq (input : List Nat) (hlen : 6 ≤ input.length) :
    readHeadser input =
      if input.take 3 ≠ sigGIF then
        .error (.formatError "Unknown signature")
      else if (input.drop 3).take 3 ≠ ver87a ∧
          (input.drop 3).take 3 ≠ ver89a then
        .error (.formatError "Unknown version")
      else
        .ok (⟨input.take 3, (input.drop 3).take 3⟩, input.drop 6) := by
  have h1 : (input.take 6).take 3 = input.take 3 := by
    rw [List.take_take]; norm_num
  have h2 : ((input.take 6).drop 3).take 3 = (input.drop 3).take 3 := by
    rw [List.drop_take, List.take_take]; norm_num
  unfold readHeadser readFull headerUnmarshal
  rw [if_pos hlen]
  simp only [Bind.bind, Except.bind, h1, h2]

/-- C6: any input stream of at least 6 bytes whose first 3 bytes are
not "GIF", or whose version bytes 4-6 are neither "87a" nor "89a",
makes the decode fail with a format error, producing no image. -/
theorem c6_reject_malformed (input : List Nat) (fuel : Nat)
    (hlen : 6 ≤ input.length)
    (hbad : input.take 3 ≠ sigGIF ∨
      ((input.drop 3).take 3 ≠ ver87a ∧ (input.drop 3).take 3 ≠ ver89a)) :
    ∃ msg, ReadGif fuel input = .error (.formatError msg) := by
  by_cases hs : input.take 3 = sigGIF
  · have hver := hbad.resolve_left (by simpa using hs)
    refine ⟨"Unknown version", ?_⟩
    have hh : readHeadser input = .error (.formatError "Unknown version") := by
      rw [readHeadser_eq input hlen, if_neg (by simpa using hs), if_pos hver]
    unfold ReadGif
    rw [hh]
    rfl
  · refine ⟨"Unknown signature", ?_⟩
    have hh : readHeadser input =
        .error (.formatError "Unknown signature") := by
      rw [readHeadser_eq input hlen, if_pos hs]
    unfold ReadGif
    rw [hh]
    rfl

/-- Witness for C6 at the concrete stream whose signature reads
"PNG". -/
theorem c6_reject_malformed_witness :
    (ReadGif 0 badSigInput).toOption = none := by
  obtain ⟨msg, h⟩ := c6_reject_malformed badSigInput 0 (by decide)
    (Or.inl (by decide))
  rw [h]
  rfl

/-! ## Claim C4: IHDR dimensions of the decode-then-encode pipeline -/

/-- C4 counterexample: decoding the two-frame GIF whose logical screen
is 10x10 but whose frames are 2x2 and encoding the result yields an
IHDR whose width and height bytes (stream offsets 16..23) encode 2x2 —
the first frame's dimensions — and not the logical screen's 10x10. -/
theorem c4_ihdr_counterexample :
    (ReadGif 100 gifTwoFrames).toOption.map
        (fun d => (d.width, d.height, d.frames.length,
          ((writePngBytes (fun x => x) d).drop 16).take 8)) =
      some (10, 10, 2, [0, 0, 0, 2, 0, 0, 0, 2]) ∧
    ([0, 0, 0, 2, 0, 0, 0, 2] : List Nat) ≠ be32 10 ++ be32 10 := by
  decide

/-- C4 amended: for every GIF input the decoder accepts and every
deflate capability, the encoded PNG's IHDR width and height fields
(the 8 bytes at stream offsets 16..23) equal the first frame's
dimensions — on the animated path just as on the still path. -/
theorem c4_ihdr_amended (compress : List Nat → List Nat) (fuel : Nat)
    (input : List Nat) (d : ImageData)
    (hdec : ReadGif fuel input = .ok d) (hne : d.frames ≠ []) :
    ((writePngBytes compress d).drop 16).take 8 =
      be32 (d.frames.headD default).width ++
        be32 (d.frames.headD default).height := rfl

/-- Witness for C4 amended at the concrete one-frame GIF. -/
theorem c4_ihdr_amended_witness :
    ((writePngBytes (fun x => x) decodedGce).drop 16).take 8 =
      be32 (decodedGce.frames.headD default).width ++
        be32 (decodedGce.frames.headD default).height :=
  c4_ihdr_amended (fun x => x) 100 gifGce decodedGce (by rfl) (by decide)

/-! ## Claim C9: frame pixel buffer length invariant -/

/-- A successful `readTableBasedImageData` yields a frame whose buffer
has exactly the requested `width*height` bytes and whose recorded
dimensions are the requested ones. -/
theorem readTableBasedImageData_ok (fuel : Nat) (r : List Nat)
    (w h : Nat) (fr : ImageFrame) (rest : List Nat)
    (hok : readTableBasedImageData fuel r w h = .ok (fr, rest)) :
    fr.data.length = w * h ∧ fr.width = w ∧ fr.height = h := by
  unfold readTableBasedImageData at hok
  cases hbyte : readByteE r with
  | error e => rw [hbyte] at hok; exact absurd hok (by simp [Bind.bind, Except.bind])
  | ok p =>
    obtain ⟨litW, r2⟩ := p
    rw [hbyte] at hok
    simp only [Bind.bind, Except.bind] at hok
    cases hcb : collectBlocks fuel [] r2 with
    | error e => rw [hcb] at hok; exact absurd hok (by simp)
    | ok q =>
      obtain ⟨payload, r3⟩ := q
      rw [hcb] at hok
      simp only at hok
      by_cases hle : w * h ≤ (gifLzwDecode litW payload).length
      · rw [if_pos hle] at hok
        injection hok with hok
        injection hok with hfr hrest
        subst hfr
        refine ⟨?_, rfl, rfl⟩
        simp [List.length_take]
        omega
      · rw [if_neg hle] at hok
        exact absurd hok (by simp)

/-- Go's copy into a slice of `d` preserves the length of `d` when the
copied span fits. -/
theorem copyRange_length (d : List Nat) (pos dstLen : Nat)
    (src : List Nat)
    (h : pos + min dstLen src.length ≤ d.length) :
    (copyRange d pos dstLen src).length = d.length := by
  unfold copyRange
  simp only [List.length_append, List.length_take, List.length_drop]
  omega

/-- Each interlace pass keeps the destination buffer at `width*height`
bytes (the destination index stays 0, as in the source). -/
theorem deinterlacePass_length (w h skip : Nat) (src : List Nat) :
    ∀ (fuel sy dy : Nat) (d : List Nat), dy = 0 → d.length = w * h →
      (deinterlacePass w h skip src fuel sy dy d).length = w * h
  | 0, _, _, _, _, hd => hd
  | fuel + 1, sy, dy, d, hdy, hd => by
    unfold deinterlacePass
    by_cases hsy : sy < h
    · rw [if_pos hsy]
      refine deinterlacePass_length w h skip src fuel _ dy _ hdy ?_
      subst hdy
      have hbound : 0 + min w ((src.drop (sy * w)).take w).length ≤
          d.length := by
        have hrow : ((src.drop (sy * w)).take w).length ≤ w := by simp
        have hw : w ≤ w * h := Nat.le_mul_of_pos_right w (by omega)
        rw [hd]
        omega
      rw [Nat.zero_mul, copyRange_length d 0 w _ hbound]
      exact hd
    · rw [if_neg hsy]; exact hd

/-- `deinterlace` always returns a `width*height`-byte buffer. -/
theorem deinterlace_length (fr : ImageFrame) (w h : Nat) :
    (deinterlace fr w h).length = w * h := by
  unfold deinterlace
  have h4 : List.range 4 = [0, 1, 2, 3] := rfl
  rw [h4]
  simp only [List.foldl]
  refine deinterlacePass_length _ _ _ _ _ _ _ _ rfl ?_
  refine deinterlacePass_length _ _ _ _ _ _ _ _ rfl ?_
  refine deinterlacePass_length _ _ _ _ _ _ _ _ rfl ?_
  refine deinterlacePass_length _ _ _ _ _ _ _ _ rfl ?_
  simp

/-- The block-loop invariant: if every accumulated frame satisfies the
pixel-buffer length invariant, so does every frame of a successful
result. -/
theorem readGifLoop_frames :
    ∀ (fuel : Nat) (data : ImageData) (nd : Nat) (r : List Nat)
      (d : ImageData),
      readGifLoop fuel data nd r = .ok d →
      (∀ f ∈ data.frames, f.data.length = f.width * f.height) →
      ∀ f ∈ d.frames, f.data.length = f.width * f.height
  | 0, _, _, _, _, hok, _ => by exact absurd hok (by simp [readGifLoop])
  | fuel + 1, data, nd, r, d, hok, hacc => by
    unfold readGifLoop at hok
    cases hbyte : readByteE r with
    | error e =>
      rw [hbyte] at hok
      exact absurd hok (by simp [Bind.bind, Except.bind])
    | ok p =>
      obtain ⟨b, r1⟩ := p
      rw [hbyte] at hok
      simp only [Bind.bind, Except.bind] at hok
      by_cases hb : b = 0x2C
      · rw [if_pos hb] at hok
        cases hid : readImageDescriptor r1 with
        | error e => rw [hid] at hok; exact absurd hok (by simp)
        | ok q =>
          obtain ⟨i, r2⟩ := q
          rw [hid] at hok
          simp only at hok
          cases htb : readTableBasedImageData fuel r2 i.imageWidth
              i.imageHeight with
          | error e => rw [htb] at hok; exact absurd hok (by simp)
          | ok fq =>
            obtain ⟨fr, r3⟩ := fq
            rw [htb] at hok
            simp only at hok
            refine readGifLoop_frames fuel _ nd r3 d hok ?_
            intro f hf
            rw [List.mem_append] at hf
            rcases hf with hf | hf
            · exact hacc f hf
            · obtain ⟨hlen, hw, hh⟩ :=
                readTableBasedImageData_ok fuel r2 i.imageWidth
                  i.imageHeight fr r3 htb
              rw [List.mem_singleton] at hf
              subst hf
              by_cases hlct : i.localColorTableFlag <;>
                by_cases hint : i.interlaceFlag <;>
                  simp [hlct, hint, deinterlace_length, hlen, hw, hh]
      · rw [if_neg hb] at hok
        by_cases hb2 : b = 0x21
        · rw [if_pos hb2] at hok
          cases hbyte2 : readByteE r1 with
          | error e => rw [hbyte2] at hok; exact absurd hok (by simp)
          | ok p2 =>
            obtain ⟨b2, r2⟩ := p2
            rw [hbyte2] at hok
            simp only at hok
            by_cases hg : b2 = 0xF9
            · rw [if_pos hg] at hok
              cases hgce : readGraphicControlExtension fuel r2 with
              | error e => rw [hgce] at hok; exact absurd hok (by simp)
              | ok gq =>
                obtain ⟨g, r3⟩ := gq
                rw [hgce] at hok
                simp only at hok
                exact readGifLoop_frames fuel data g.delayTime r3 d hok hacc
            · rw [if_neg hg] at hok
              by_cases hc : b2 = 0xFE
              · rw [if_pos hc] at hok
                cases hsk : skipBlock fuel r2 with
                | error e => rw [hsk] at hok; exact absurd hok (by simp)
                | ok r3 =>
                  rw [hsk] at hok
                  simp only at hok
                  exact readGifLoop_frames fuel data nd r3 d hok hacc
              · rw [if_neg hc] at hok
                by_cases hp : b2 = 0x01
                · rw [if_pos hp] at hok
                  cases hsk : skipBlock fuel r2 with
                  | error e => rw [hsk] at hok; exact absurd hok (by simp)
                  | ok r3 =>
                    rw [hsk] at hok
                    simp only at hok
                    exact readGifLoop_frames fuel data nd r3 d hok hacc
                · rw [if_neg hp] at hok
                  by_cases ha : b2 = 0xFF
                  · rw [if_pos ha] at hok
                    cases hap : readApplicationExtension fuel r2 with
                    | error e => rw [hap] at hok; exact absurd hok (by simp)
                    | ok r3 =>
                      rw [hap] at hok
                      simp only at hok
                      exact readGifLoop_frames fuel data nd r3 d hok hacc
                  · rw [if_neg ha] at hok
                    exact absurd hok (by simp)
        · rw [if_neg hb2] at hok
          by_cases ht : b = 0x3B
          · rw [if_pos ht] at hok
            injection hok with hok
            subst hok
            exact hacc
          · rw [if_neg ht] at hok
            exact absurd hok (by simp)

/-- C9: every frame of every image the decoder returns satisfies
`len(pixelBuffer) = width * height`: `readTableBasedImageData` either
fails or delivers exactly `width*height` bytes, and deinterlacing
preserves that length. -/
theorem c9_frame_buffer_length (fuel : Nat) (input : List Nat)
    (d : ImageData) (h : ReadGif fuel input = .ok d) :
    ∀ f ∈ d.frames, f.data.length = f.width * f.height := by
  unfold ReadGif at h
  cases hh : readHeadser input with
  | error e => rw [hh] at h; exact absurd h (by simp [Bind.bind, Except.bind])
  | ok hp =>
    obtain ⟨hd, r1⟩ := hp
    rw [hh] at h
    simp only [Bind.bind, Except.bind] at h
    cases hl : readLogicalScreenDescriptor r1 with
    | error e => rw [hl] at h; exact absurd h (by simp)
    | ok lp =>
      obtain ⟨l, r2⟩ := lp
      rw [hl] at h
      simp only at h
      by_cases hcr : l.colorResolution ≠ 8
      · rw [if_pos hcr] at h
        exact absurd h (by simp)
      · rw [if_neg hcr] at h
        by_cases hgct : l.globalColorTableFlag <;>
          simp only [hgct, if_pos, if_neg, Bool.false_eq_true,
            not_false_eq_true, if_true, if_false] at h <;>
          exact readGifLoop_frames fuel _ 0 r2 d h (by intro f hf; simp at hf)

/-- Witness for C9 at the concrete one-frame GIF. -/
theorem c9_frame_buffer_length_witness :
    decodedGce.frames.all
      (fun f => f.data.length == f.width * f.height) = true := by
  have h := c9_frame_buffer_length 100 gifGce decodedGce (by rfl)
  rw [List.all_eq_true]
  intro f hf
  simpa using h f hf

/-- Witness for C3 amended at the concrete two-frame image. -/
theorem c3_seqnums_amended_witness :
    (writeAnimationPngData (fun x => x) sampleAnimImage).countP
        (fun c => c.type == typeFCTL) = sampleAnimImage.frames.length ∧
    (writeAnimationPngData (fun x => x) sampleAnimImage).countP
        (fun c => c.type == typeIDAT || c.type == typeFDAT) =
      sampleAnimImage.frames.length ∧
    chunkSeqNums (writeAnimationPngData (fun x => x) sampleAnimImage) =
      List.range (2 * sampleAnimImage.frames.length - 1) :=
  c3_seqnums_amended (fun x => x) sampleAnimImage frameA frameB []
    rfl (by decide)

end Gif2Png
